import Mathlib

/-!
Formal model of `src/website_deadlink_scraper.py` (class
`WebsiteDeadlinkScraper`).

The network, the clock and the two CSV stores are modelled by a `World`
value: `fetch url` is the outcome of `requests.get(url)` followed by
anchor extraction and `urljoin` resolution (`none` models a raised
`requests` exception, `some links` the list of resolved absolute hrefs in
parse order), and `head url` is the final status code of
`requests.head(url, allow_redirects=True)` (`none` models a raised
exception).  Timestamps are integers counted in days, matching the
source's `timedelta(days=14)` comparison granularity; `now` is the value
of `datetime.now()` (held fixed over the run).

The mutable attributes of the Python object are gathered in `ScrState`.
Four extra fields (`dispatched`, `fetched`, `upserts`, `enq`) are pure
event logs: they record, in order, the frontier entries submitted to the
executor, the pages for which a `requests.get` was issued together with
their depth, the calls to `update_history`, and the entries ever placed
on the `to_visit` queue.  They are write-only ghost state and never
influence control flow.

Concurrency: the source dispatches each batch of at most 10 entries to a
`ThreadPoolExecutor(max_workers=10)` and collects the futures'
results in completion order before forming the next batch.  The model
executes a batch sequentially in submission order, one admissible
interleaving of the source's GIL-serialised execution; the batch barrier
of `start_scraping` (lines 153-166) is preserved exactly.

`start_scraping` is given explicit fuel bounding the number of loop
iterations; every safety statement below is proved for all fuel values,
hence holds at every point of every (finite prefix of a) crawl.
-/

namespace DeadLinkScraper

/-- External world: network responses, prior store contents and the clock. -/
structure World where
  /-- Value of `datetime.now()`, in days. -/
  now : Int
  /-- Rows of `scan_history.csv` as loaded by `load_history` (line 92-95):
  URL and `LastScanned` timestamp in days. -/
  history0 : List (String × Int)
  /-- Rows of `deadlinks.csv` as loaded by `load_existing_results`
  (lines 97-99): (source, deadlink) pairs from earlier invocations. -/
  existingResults : List (String × String)
  /-- Outcome of `requests.get(url)` + BeautifulSoup anchor scan + `urljoin`:
  `none` models a raised exception, `some links` the resolved hrefs. -/
  fetch : String → Option (List String)
  /-- Final status code of `requests.head(url, allow_redirects=True)`;
  `none` models a raised `requests.RequestException`. -/
  head : String → Option Nat

/-- Crawl configuration.  The source pins `max_pages = 10000` and
`max_depth = 20` in `__init__` (lines 21-22); they are carried as fields
(with those defaults) so the enforcement logic can be stated for the
general ceiling, and `base_url` is the already-normalized seed produced
by `format_and_verify_url` (line 26). -/
structure Config where
  base_url : String
  max_pages : Nat := 10000
  max_depth : Nat := 20

/-- The mutable attributes of the scraper object, plus ghost event logs. -/
structure ScrState where
  /-- Field `self.visited_urls` (line 23); the Python `set` is modelled as a
  duplicate-free list in insertion order. -/
  visited : List String
  /-- Field `self.deadlinks` (lines 24, 99, 137): accumulated (source, deadlink)
  records. -/
  deadlinks : List (String × String)
  /-- Field `self.current_depth` (lines 25, 118). -/
  current_depth : Nat
  /-- Field `self.history_df` (lines 94, 176-181) as (URL, LastScanned) rows. -/
  history : List (String × Int)
  /-- Ghost log: frontier entries submitted to the executor (line 160). -/
  dispatched : List (String × Nat)
  /-- Ghost log: pages for which the `requests.get` of line 129 was
  issued, with the depth they were scraped at. -/
  fetched : List (String × Nat)
  /-- Ghost log: URLs passed to `update_history` (line 143), in order. -/
  upserts : List String
  /-- Ghost log: every entry ever placed on the `to_visit` queue
  (lines 151, 164). -/
  enq : List (String × Nat)
  deriving Repr, DecidableEq

/-- The characters after the first occurrence of `://`, or `none` when
there is no such occurrence. -/
def after_scheme_sep : List Char → Option (List Char)
  | [] => none
  | ':' :: '/' :: '/' :: rest => some rest
  | _ :: rest => after_scheme_sep rest

/-- Model of `urlparse(url).netloc` for the absolute URLs this crawler
handles: the text after the first `://` up to the first `/`, `?` or `#`,
and the empty string when the URL carries no `://` (as `urlparse` yields
for a scheme-less string without a leading `//`). -/
def netloc (url : String) : String :=
  match after_scheme_sep url.data with
  | some rest => String.mk (rest.takeWhile (fun c => c != '/' && c != '?' && c != '#'))
  | none => ""

/-- Model of Python's `str.endswith` on the netloc strings. -/
def ends_with (s post : String) : Bool :=
  post.data.isSuffixOf s.data

/-- Source `is_valid_url` (lines 101-104): domain scope test.  True iff the
URL's netloc equals the base URL's netloc or ends with it. -/
def is_valid_url (base_url url : String) : Bool :=
  netloc url == netloc base_url || ends_with (netloc url) (netloc base_url)

/-- Source `check_link` (lines 106-111): dead-link test.  `requests.head` with
redirects; `True` (dead) when the final status differs from 200 or the
request raised. -/
def check_link (w : World) (url : String) : Bool :=
  match w.head url with
  | some code => code != 200
  | none => true

/-- The rescan window of line 123: `timedelta(days=14)`. -/
def rescan_window : Int := 14

/-- The rescan gate of lines 121-123: the URL has a row in
`history_df` (first match, as `.iloc[0]`) whose `LastScanned` is less
than `rescan_window` days before `now`. -/
def recently_scanned (history : List (String × Int)) (now : Int) (url : String) : Bool :=
  match history.lookup url with
  | some last => decide (now - last < rescan_window)
  | none => false

/-- Source `update_history` (lines 176-183): upsert of the URL's `LastScanned`
to `now`.  Updates every matching row (as the `.loc` assignment of
line 178 does), else appends a fresh row. -/
def update_history (history : List (String × Int)) (now : Int) (url : String) :
    List (String × Int) :=
  if history.any (fun p => p.1 == url) then
    history.map (fun p => if p.1 == url then (p.1, now) else p)
  else
    history ++ [(url, now)]

/-- Lines 117-118 of `scrape_page`: add the URL to the visited set and
raise `current_depth`. -/
def mark_visited (s : ScrState) (url : String) (depth : Nat) : ScrState :=
  { s with visited := s.visited ++ [url],
           current_depth := max s.current_depth depth }

/-- Ghost bookkeeping for the `requests.get` of line 129. -/
def mark_fetch (s : ScrState) (url : String) (depth : Nat) : ScrState :=
  { s with fetched := s.fetched ++ [(url, depth)] }

/-- Line 143 of `scrape_page`: the `update_history` call issued after the
link loop, with its ghost log entry. -/
def finish_page (s : ScrState) (now : Int) (url : String) : ScrState :=
  { s with history := update_history s.history now url,
           upserts := s.upserts ++ [url] }

/-- The `for link in soup.find_all(..)` loop of lines 133-140: each
resolved href in scope is either recorded as a dead link (lines 136-138)
or, when alive and unvisited, appended to `internal_links`
(lines 139-140). -/
def link_loop (cfg : Config) (w : World) (url : String) (depth : Nat) :
    ScrState → List (String × Nat) → List String → ScrState × List (String × Nat)
  | s, acc, [] => (s, acc)
  | s, acc, full_url :: rest =>
    if is_valid_url cfg.base_url full_url then
      if check_link w full_url then
        link_loop cfg w url depth
          { s with deadlinks := s.deadlinks ++ [(url, full_url)] } acc rest
      else if full_url ∈ s.visited then
        link_loop cfg w url depth s acc rest
      else
        link_loop cfg w url depth s (acc ++ [(full_url, depth + 1)]) rest
    else
      link_loop cfg w url depth s acc rest

/-- Source `scrape_page` (lines 113-148).  Returns the updated state and the
`internal_links` result.  The `except` of lines 146-148 is reached
exactly when `w.fetch` is `none`. -/
def scrape_page (cfg : Config) (w : World) (s : ScrState) (url : String)
    (depth : Nat) (force_scan : Bool) : ScrState × List (String × Nat) :=
  if url ∈ s.visited ∨ cfg.max_depth < depth then (s, [])
  else
    let s1 := mark_visited s url depth
    if force_scan = false ∧ recently_scanned s.history w.now url = true then (s1, [])
    else
      let s2 := mark_fetch s1 url depth
      match w.fetch url with
      | none => (s2, [])
      | some hrefs =>
        let r := link_loop cfg w url depth s2 [] hrefs
        (finish_page r.1 w.now url, r.2)

/-- The per-batch dispatch of lines 158-164: each entry is submitted with
`force_scan = (url == base_url)` (line 159) and the futures' results are
concatenated onto the queue.  The model runs the batch in submission
order (one admissible interleaving of the thread pool). -/
def run_batch (cfg : Config) (w : World) :
    ScrState → List (String × Nat) → ScrState × List (String × Nat)
  | s, [] => (s, [])
  | s, (url, depth) :: rest =>
    let force_scan := url == cfg.base_url
    let s0 : ScrState := { s with dispatched := s.dispatched ++ [(url, depth)] }
    let r := scrape_page cfg w s0 url depth force_scan
    let r2 := run_batch cfg w r.1 rest
    (r2.1, r.2 ++ r2.2)

/-- The driving loop of `start_scraping` (lines 150-166):
`while to_visit and len(self.visited_urls) < self.max_pages`, take a
batch of at most 10, run it to completion, extend the queue with the
newly discovered links.  `fuel` bounds the number of iterations; the
result is the final state and the remaining queue. -/
def crawl_loop (cfg : Config) (w : World) :
    Nat → ScrState → List (String × Nat) → ScrState × List (String × Nat)
  | 0, s, to_visit => (s, to_visit)
  | fuel + 1, s, to_visit =>
    if to_visit = [] ∨ cfg.max_pages ≤ s.visited.length then (s, to_visit)
    else
      let batch := to_visit.take 10
      let rest := to_visit.drop 10
      let r := run_batch cfg w s batch
      let s1 : ScrState := { r.1 with enq := r.1.enq ++ r.2 }
      crawl_loop cfg w fuel s1 (rest ++ r.2)

/-- The state right after `__init__` and `setup` (lines 14-28, 63-67):
empty visited set, dead-link accumulator preloaded by
`load_existing_results` (line 99), history loaded by `load_history`
(line 94). -/
def init_state (w : World) : ScrState :=
  { visited := [], deadlinks := w.existingResults, current_depth := 0,
    history := w.history0,
    dispatched := [], fetched := [], upserts := [], enq := [] }

/-- Source `start_scraping` (lines 150-169) run from a fresh object: the queue
starts as `[(base_url, 0)]` (line 151). -/
def start_scraping (cfg : Config) (w : World) (fuel : Nat) :
    ScrState × List (String × Nat) :=
  crawl_loop cfg w fuel { init_state w with enq := [(cfg.base_url, 0)] }
    [(cfg.base_url, 0)]

/-! Basic lemmas about the link loop -/

theorem link_loop_cons_dead (cfg : Config) (w : World) (url : String) (depth : Nat)
    (s : ScrState) (acc : List (String × Nat)) (a : String) (rest : List String)
    (hv : is_valid_url cfg.base_url a = true) (hd : check_link w a = true) :
    link_loop cfg w url depth s acc (a :: rest) =
      link_loop cfg w url depth
        { s with deadlinks := s.deadlinks ++ [(url, a)] } acc rest := by
  simp [link_loop, hv, hd]

theorem link_loop_cons_seen (cfg : Config) (w : World) (url : String) (depth : Nat)
    (s : ScrState) (acc : List (String × Nat)) (a : String) (rest : List String)
    (hv : is_valid_url cfg.base_url a = true) (hd : check_link w a = false)
    (hm : a ∈ s.visited) :
    link_loop cfg w url depth s acc (a :: rest) =
      link_loop cfg w url depth s acc rest := by
  simp [link_loop, hv, hd, hm]

theorem link_loop_cons_new (cfg : Config) (w : World) (url : String) (depth : Nat)
    (s : ScrState) (acc : List (String × Nat)) (a : String) (rest : List String)
    (hv : is_valid_url cfg.base_url a = true) (hd : check_link w a = false)
    (hm : a ∉ s.visited) :
    link_loop cfg w url depth s acc (a :: rest) =
      link_loop cfg w url depth s (acc ++ [(a, depth + 1)]) rest := by
  simp [link_loop, hv, hd, hm]

theorem link_loop_cons_invalid (cfg : Config) (w : World) (url : String) (depth : Nat)
    (s : ScrState) (acc : List (String × Nat)) (a : String) (rest : List String)
    (hv : is_valid_url cfg.base_url a = false) :
    link_loop cfg w url depth s acc (a :: rest) =
      link_loop cfg w url depth s acc rest := by
  simp [link_loop, hv]

/-- The link loop only appends dead-link records: every other field of
the state is untouched, and every appended record validates dead with
the scraped page as its source. -/
theorem link_loop_fst_spec (cfg : Config) (w : World) (url : String) (depth : Nat) :
    ∀ (L : List String) (s : ScrState) (acc : List (String × Nat)),
      ∃ extra, (link_loop cfg w url depth s acc L).1 =
          { s with deadlinks := s.deadlinks ++ extra } ∧
        ∀ r ∈ extra, check_link w r.2 = true ∧ r.1 = url := by
  intro L
  induction L with
  | nil =>
    intro s acc
    exact ⟨[], by simp [link_loop], by simp⟩
  | cons a rest ih =>
    intro s acc
    by_cases hv : is_valid_url cfg.base_url a
    · by_cases hd : check_link w a
      · rw [link_loop_cons_dead cfg w url depth s acc a rest hv hd]
        obtain ⟨extra, h1, h2⟩ :=
          ih { s with deadlinks := s.deadlinks ++ [(url, a)] } acc
        refine ⟨(url, a) :: extra, ?_, ?_⟩
        · rw [h1]; simp
        · intro r hr
          rcases List.mem_cons.mp hr with h | h
          · subst h; exact ⟨hd, rfl⟩
          · exact h2 r h
      · rw [Bool.not_eq_true] at hd
        by_cases hm : a ∈ s.visited
        · rw [link_loop_cons_seen cfg w url depth s acc a rest hv hd hm]
          exact ih s acc
        · rw [link_loop_cons_new cfg w url depth s acc a rest hv hd hm]
          exact ih s (acc ++ [(a, depth + 1)])
    · rw [Bool.not_eq_true] at hv
      rw [link_loop_cons_invalid cfg w url depth s acc a rest hv]
      exact ih s acc

/-- Every link the loop emits beyond the accumulator is in scope, alive,
unvisited when the loop started, and tagged with depth + 1. -/
theorem link_loop_snd_spec (cfg : Config) (w : World) (url : String) (depth : Nat) :
    ∀ (L : List String) (s : ScrState) (acc : List (String × Nat)),
      ∀ p ∈ (link_loop cfg w url depth s acc L).2,
        p ∈ acc ∨ (is_valid_url cfg.base_url p.1 = true ∧
          check_link w p.1 = false ∧ p.1 ∉ s.visited ∧ p.2 = depth + 1) := by
  intro L
  induction L with
  | nil =>
    intro s acc p hp
    simp only [link_loop] at hp
    exact Or.inl hp
  | cons a rest ih =>
    intro s acc p hp
    by_cases hv : is_valid_url cfg.base_url a
    · by_cases hd : check_link w a
      · rw [link_loop_cons_dead cfg w url depth s acc a rest hv hd] at hp
        exact ih { s with deadlinks := s.deadlinks ++ [(url, a)] } acc p hp
      · rw [Bool.not_eq_true] at hd
        by_cases hm : a ∈ s.visited
        · rw [link_loop_cons_seen cfg w url depth s acc a rest hv hd hm] at hp
          exact ih s acc p hp
        · rw [link_loop_cons_new cfg w url depth s acc a rest hv hd hm] at hp
          rcases ih s (acc ++ [(a, depth + 1)]) p hp with h | h
          · rcases List.mem_append.mp h with h' | h'
            · exact Or.inl h'
            · right
              have : p = (a, depth + 1) := by simpa using h'
              subst this
              exact ⟨hv, hd, hm, rfl⟩
          · exact Or.inr h
    · rw [Bool.not_eq_true] at hv
      rw [link_loop_cons_invalid cfg w url depth s acc a rest hv]  at hp
      exact ih s acc p hp

/-! Case equations for scrape_page -/

theorem scrape_page_guard (cfg : Config) (w : World) (s : ScrState) (url : String)
    (depth : Nat) (force_scan : Bool)
    (h : url ∈ s.visited ∨ cfg.max_depth < depth) :
    scrape_page cfg w s url depth force_scan = (s, []) := by
  simp only [scrape_page]
  rw [if_pos h]

theorem scrape_page_skip (cfg : Config) (w : World) (s : ScrState) (url : String)
    (depth : Nat) (force_scan : Bool)
    (h : ¬(url ∈ s.visited ∨ cfg.max_depth < depth))
    (hg : force_scan = false ∧ recently_scanned s.history w.now url = true) :
    scrape_page cfg w s url depth force_scan = (mark_visited s url depth, []) := by
  simp only [scrape_page]
  rw [if_neg h, if_pos hg]

theorem scrape_page_fail (cfg : Config) (w : World) (s : ScrState) (url : String)
    (depth : Nat) (force_scan : Bool)
    (h : ¬(url ∈ s.visited ∨ cfg.max_depth < depth))
    (hg : ¬(force_scan = false ∧ recently_scanned s.history w.now url = true))
    (hf : w.fetch url = none) :
    scrape_page cfg w s url depth force_scan =
      (mark_fetch (mark_visited s url depth) url depth, []) := by
  simp only [scrape_page]
  rw [if_neg h, if_neg hg, hf]

theorem scrape_page_succ (cfg : Config) (w : World) (s : ScrState) (url : String)
    (depth : Nat) (force_scan : Bool) (hrefs : List String)
    (h : ¬(url ∈ s.visited ∨ cfg.max_depth < depth))
    (hg : ¬(force_scan = false ∧ recently_scanned s.history w.now url = true))
    (hf : w.fetch url = some hrefs) :
    scrape_page cfg w s url depth force_scan =
      (finish_page
        (link_loop cfg w url depth
          (mark_fetch (mark_visited s url depth) url depth) [] hrefs).1 w.now url,
       (link_loop cfg w url depth
          (mark_fetch (mark_visited s url depth) url depth) [] hrefs).2) := by
  simp only [scrape_page]
  rw [if_neg h, if_neg hg, hf]

/-! Field-level facts about scrape_page -/

/-- scrape_page never touches the dispatch or queue logs. -/
theorem scrape_page_dispatched_enq (cfg : Config) (w : World) (s : ScrState)
    (url : String) (depth : Nat) (force_scan : Bool) :
    (scrape_page cfg w s url depth force_scan).1.dispatched = s.dispatched ∧
    (scrape_page cfg w s url depth force_scan).1.enq = s.enq := by
  by_cases h : url ∈ s.visited ∨ cfg.max_depth < depth
  · rw [scrape_page_guard cfg w s url depth force_scan h]
    exact ⟨rfl, rfl⟩
  · by_cases hg : force_scan = false ∧ recently_scanned s.history w.now url = true
    · rw [scrape_page_skip cfg w s url depth force_scan h hg]
      exact ⟨rfl, rfl⟩
    · cases hf : w.fetch url with
      | none =>
        rw [scrape_page_fail cfg w s url depth force_scan h hg hf]
        exact ⟨rfl, rfl⟩
      | some hrefs =>
        rw [scrape_page_succ cfg w s url depth force_scan hrefs h hg hf]
        obtain ⟨extra, he, -⟩ := link_loop_fst_spec cfg w url depth hrefs
          (mark_fetch (mark_visited s url depth) url depth) []
        rw [he]
        simp [finish_page, mark_fetch, mark_visited]

/-- The visited set either stays put (already-seen URL or depth cut) or
gains exactly the scraped URL. -/
theorem scrape_page_visited (cfg : Config) (w : World) (s : ScrState)
    (url : String) (depth : Nat) (force_scan : Bool) :
    (scrape_page cfg w s url depth force_scan).1.visited = s.visited ∨
    (url ∉ s.visited ∧ depth ≤ cfg.max_depth ∧
      (scrape_page cfg w s url depth force_scan).1.visited = s.visited ++ [url]) := by
  by_cases h : url ∈ s.visited ∨ cfg.max_depth < depth
  · rw [scrape_page_guard cfg w s url depth force_scan h]
    exact Or.inl rfl
  · push_neg at h
    have h' : ¬(url ∈ s.visited ∨ cfg.max_depth < depth) := by
      rw [not_or]; exact ⟨h.1, by omega⟩
    refine Or.inr ⟨h.1, by omega, ?_⟩
    by_cases hg : force_scan = false ∧ recently_scanned s.history w.now url = true
    · rw [scrape_page_skip cfg w s url depth force_scan h' hg]
      rfl
    · cases hf : w.fetch url with
      | none =>
        rw [scrape_page_fail cfg w s url depth force_scan h' hg hf]
        rfl
      | some hrefs =>
        rw [scrape_page_succ cfg w s url depth force_scan hrefs h' hg hf]
        obtain ⟨extra, he, -⟩ := link_loop_fst_spec cfg w url depth hrefs
          (mark_fetch (mark_visited s url depth) url depth) []
        rw [he]
        simp [finish_page, mark_fetch, mark_visited]

/-- The fetch log either stays put or gains exactly the scraped entry,
and a fetch is only issued within the depth ceiling. -/
theorem scrape_page_fetched (cfg : Config) (w : World) (s : ScrState)
    (url : String) (depth : Nat) (force_scan : Bool) :
    (scrape_page cfg w s url depth force_scan).1.fetched = s.fetched ∨
    (depth ≤ cfg.max_depth ∧ url ∉ s.visited ∧
      (scrape_page cfg w s url depth force_scan).1.fetched =
        s.fetched ++ [(url, depth)]) := by
  by_cases h : url ∈ s.visited ∨ cfg.max_depth < depth
  · rw [scrape_page_guard cfg w s url depth force_scan h]
    exact Or.inl rfl
  · by_cases hg : force_scan = false ∧ recently_scanned s.history w.now url = true
    · rw [scrape_page_skip cfg w s url depth force_scan h hg]
      exact Or.inl rfl
    · have h2 : depth ≤ cfg.max_depth ∧ url ∉ s.visited := by
        rw [not_or] at h
        exact ⟨by omega, h.1⟩
      cases hf : w.fetch url with
      | none =>
        rw [scrape_page_fail cfg w s url depth force_scan h hg hf]
        exact Or.inr ⟨h2.1, h2.2, rfl⟩
      | some hrefs =>
        rw [scrape_page_succ cfg w s url depth force_scan hrefs h hg hf]
        obtain ⟨extra, he, -⟩ := link_loop_fst_spec cfg w url depth hrefs
          (mark_fetch (mark_visited s url depth) url depth) []
        refine Or.inr ⟨h2.1, h2.2, ?_⟩
        rw [he]
        simp [finish_page, mark_fetch, mark_visited]

/-- When the depth guard and the rescan gate both pass, the fetch of
line 129 is always attempted, whatever its outcome. -/
theorem scrape_page_pass_fetched (cfg : Config) (w : World) (s : ScrState)
    (url : String) (depth : Nat) (force_scan : Bool)
    (h : ¬(url ∈ s.visited ∨ cfg.max_depth < depth))
    (hg : ¬(force_scan = false ∧ recently_scanned s.history w.now url = true)) :
    (scrape_page cfg w s url depth force_scan).1.fetched =
      s.fetched ++ [(url, depth)] := by
  cases hf : w.fetch url with
  | none =>
    rw [scrape_page_fail cfg w s url depth force_scan h hg hf]
    rfl
  | some hrefs =>
    rw [scrape_page_succ cfg w s url depth force_scan hrefs h hg hf]
    obtain ⟨extra, he, -⟩ := link_loop_fst_spec cfg w url depth hrefs
      (mark_fetch (mark_visited s url depth) url depth) []
    rw [he]
    simp [finish_page, mark_fetch, mark_visited]

/-- The history upsert log gains the scraped URL exactly when the guard
and gate pass and the fetch succeeds; otherwise it is untouched. -/
theorem scrape_page_upserts_eq (cfg : Config) (w : World) (s : ScrState)
    (url : String) (depth : Nat) (force_scan : Bool)
    (h : ¬(url ∈ s.visited ∨ cfg.max_depth < depth))
    (hg : ¬(force_scan = false ∧ recently_scanned s.history w.now url = true)) :
    (scrape_page cfg w s url depth force_scan).1.upserts =
      (if (w.fetch url).isSome then s.upserts ++ [url] else s.upserts) := by
  cases hf : w.fetch url with
  | none =>
    rw [scrape_page_fail cfg w s url depth force_scan h hg hf]
    rfl
  | some hrefs =>
    rw [scrape_page_succ cfg w s url depth force_scan hrefs h hg hf]
    obtain ⟨extra, he, -⟩ := link_loop_fst_spec cfg w url depth hrefs
      (mark_fetch (mark_visited s url depth) url depth) []
    rw [he]
    simp [finish_page, mark_fetch, mark_visited]

/-- Outside the guard-and-gate-pass-and-fetch-success path the upsert
log is untouched. -/
theorem scrape_page_upserts_same (cfg : Config) (w : World) (s : ScrState)
    (url : String) (depth : Nat) (force_scan : Bool)
    (hcase : (url ∈ s.visited ∨ cfg.max_depth < depth) ∨
      (force_scan = false ∧ recently_scanned s.history w.now url = true) ∨
      w.fetch url = none) :
    (scrape_page cfg w s url depth force_scan).1.upserts = s.upserts := by
  by_cases h : url ∈ s.visited ∨ cfg.max_depth < depth
  · rw [scrape_page_guard cfg w s url depth force_scan h]
  · by_cases hg : force_scan = false ∧ recently_scanned s.history w.now url = true
    · rw [scrape_page_skip cfg w s url depth force_scan h hg]
      rfl
    · have hf : w.fetch url = none := by tauto
      rw [scrape_page_fail cfg w s url depth force_scan h hg hf]
      rfl

/-- The upsert log stays duplicate-free and inside the visited set. -/
theorem scrape_page_upserts_inv (cfg : Config) (w : World) (s : ScrState)
    (url : String) (depth : Nat) (force_scan : Bool)
    (h1 : s.upserts.Nodup) (h2 : ∀ u ∈ s.upserts, u ∈ s.visited) :
    (scrape_page cfg w s url depth force_scan).1.upserts.Nodup ∧
    ∀ u ∈ (scrape_page cfg w s url depth force_scan).1.upserts,
      u ∈ (scrape_page cfg w s url depth force_scan).1.visited := by
  by_cases h : url ∈ s.visited ∨ cfg.max_depth < depth
  · rw [scrape_page_guard cfg w s url depth force_scan h]
    exact ⟨h1, h2⟩
  · by_cases hg : force_scan = false ∧ recently_scanned s.history w.now url = true
    · rw [scrape_page_skip cfg w s url depth force_scan h hg]
      refine ⟨h1, ?_⟩
      intro u hu
      simp only [mark_visited, List.mem_append]
      exact Or.inl (h2 u hu)
    · cases hf : w.fetch url with
      | none =>
        rw [scrape_page_fail cfg w s url depth force_scan h hg hf]
        refine ⟨h1, ?_⟩
        intro u hu
        simp only [mark_fetch, mark_visited, List.mem_append]
        exact Or.inl (h2 u hu)
      | some hrefs =>
        rw [scrape_page_succ cfg w s url depth force_scan hrefs h hg hf]
        obtain ⟨extra, he, -⟩ := link_loop_fst_spec cfg w url depth hrefs
          (mark_fetch (mark_visited s url depth) url depth) []
        rw [he]
        have hnm : url ∉ s.visited := by
          rw [not_or] at h
          exact h.1
        have hnu : url ∉ s.upserts := fun hu => hnm (h2 url hu)
        constructor
        · simp only [finish_page, mark_fetch, mark_visited]
          simp [List.nodup_append, h1, hnu]
        · intro u hu
          simp only [finish_page, mark_fetch, mark_visited, List.mem_append] at hu ⊢
          rcases hu with hu | hu
          · exact Or.inl (h2 u hu)
          · simp only [List.mem_singleton] at hu
            exact Or.inr (by simp [hu])

/-- Every dead-link record scrape_page appends validates dead and names
a source page in the resulting visited set. -/
theorem scrape_page_deadlinks (cfg : Config) (w : World) (s : ScrState)
    (url : String) (depth : Nat) (force_scan : Bool) :
    ∃ extra, (scrape_page cfg w s url depth force_scan).1.deadlinks =
        s.deadlinks ++ extra ∧
      ∀ r ∈ extra, check_link w r.2 = true ∧
        r.1 ∈ (scrape_page cfg w s url depth force_scan).1.visited := by
  by_cases h : url ∈ s.visited ∨ cfg.max_depth < depth
  · rw [scrape_page_guard cfg w s url depth force_scan h]
    exact ⟨[], by simp, by simp⟩
  · by_cases hg : force_scan = false ∧ recently_scanned s.history w.now url = true
    · rw [scrape_page_skip cfg w s url depth force_scan h hg]
      exact ⟨[], by simp [mark_visited], by simp⟩
    · cases hf : w.fetch url with
      | none =>
        rw [scrape_page_fail cfg w s url depth force_scan h hg hf]
        exact ⟨[], by simp [mark_fetch, mark_visited], by simp⟩
      | some hrefs =>
        rw [scrape_page_succ cfg w s url depth force_scan hrefs h hg hf]
        obtain ⟨extra, he, hprop⟩ := link_loop_fst_spec cfg w url depth hrefs
          (mark_fetch (mark_visited s url depth) url depth) []
        refine ⟨extra, ?_, ?_⟩
        · rw [he]
          simp [finish_page, mark_fetch, mark_visited]
        · intro r hr
          refine ⟨(hprop r hr).1, ?_⟩
          rw [he]
          simp only [finish_page, mark_fetch, mark_visited, List.mem_append]
          exact Or.inr (by simp [(hprop r hr).2])

/-- Every link scrape_page returns is in scope, alive and one level
deeper than the scraped page. -/
theorem scrape_page_snd (cfg : Config) (w : World) (s : ScrState)
    (url : String) (depth : Nat) (force_scan : Bool) :
    ∀ p ∈ (scrape_page cfg w s url depth force_scan).2,
      is_valid_url cfg.base_url p.1 = true ∧ check_link w p.1 = false ∧
        p.2 = depth + 1 := by
  by_cases h : url ∈ s.visited ∨ cfg.max_depth < depth
  · rw [scrape_page_guard cfg w s url depth force_scan h]
    intro p hp
    simp at hp
  · by_cases hg : force_scan = false ∧ recently_scanned s.history w.now url = true
    · rw [scrape_page_skip cfg w s url depth force_scan h hg]
      intro p hp
      simp at hp
    · cases hf : w.fetch url with
      | none =>
        rw [scrape_page_fail cfg w s url depth force_scan h hg hf]
        intro p hp
        simp at hp
      | some hrefs =>
        rw [scrape_page_succ cfg w s url depth force_scan hrefs h hg hf]
        intro p hp
        have := link_loop_snd_spec cfg w url depth hrefs
          (mark_fetch (mark_visited s url depth) url depth) [] p hp
        rcases this with h' | h'
        · simp at h'
        · exact ⟨h'.1, h'.2.1, h'.2.2.2⟩

/-! Facts about run_batch -/

/-- A batch dispatches exactly its entries, in order, regardless of the
outcome of each page: no entry is ever truncated away and a failed page
does not stop the batch. -/
theorem run_batch_dispatched (cfg : Config) (w : World) :
    ∀ (b : List (String × Nat)) (s : ScrState),
      (run_batch cfg w s b).1.dispatched = s.dispatched ++ b := by
  intro b
  induction b with
  | nil =>
    intro s
    simp [run_batch]
  | cons e rest ih =>
    intro s
    obtain ⟨url, depth⟩ := e
    simp only [run_batch]
    rw [ih]
    rw [(scrape_page_dispatched_enq cfg w
      { s with dispatched := s.dispatched ++ [(url, depth)] } url depth
      (url == cfg.base_url)).1]
    simp

/-- run_batch never touches the queue log. -/
theorem run_batch_enq (cfg : Config) (w : World) :
    ∀ (b : List (String × Nat)) (s : ScrState),
      (run_batch cfg w s b).1.enq = s.enq := by
  intro b
  induction b with
  | nil =>
    intro s
    simp [run_batch]
  | cons e rest ih =>
    intro s
    obtain ⟨url, depth⟩ := e
    simp only [run_batch]
    rw [ih]
    exact (scrape_page_dispatched_enq cfg w
      { s with dispatched := s.dispatched ++ [(url, depth)] } url depth
      (url == cfg.base_url)).2

/-- The visited set grows by at most one URL per batch entry, and every
URL it gains is the URL of some batch entry. -/
theorem run_batch_visited (cfg : Config) (w : World) :
    ∀ (b : List (String × Nat)) (s : ScrState),
      ∃ t, (run_batch cfg w s b).1.visited = s.visited ++ t ∧
        t.length ≤ b.length ∧ ∀ v ∈ t, v ∈ b.map Prod.fst := by
  intro b
  induction b with
  | nil =>
    intro s
    exact ⟨[], by simp [run_batch], by simp, by simp⟩
  | cons e rest ih =>
    intro s
    obtain ⟨url, depth⟩ := e
    simp only [run_batch]
    set s0 : ScrState := { s with dispatched := s.dispatched ++ [(url, depth)] } with hs0
    obtain ⟨t2, h2, hlen2, hmem2⟩ :=
      ih (scrape_page cfg w s0 url depth (url == cfg.base_url)).1
    rcases scrape_page_visited cfg w s0 url depth (url == cfg.base_url) with h1 |
      ⟨-, -, h1⟩
    · refine ⟨t2, ?_, by simpa using Nat.le_succ_of_le hlen2, ?_⟩
      · rw [h2, h1]
      · intro v hv
        simp only [List.map_cons, List.mem_cons]
        exact Or.inr (hmem2 v hv)
    · refine ⟨url :: t2, ?_, by simpa using hlen2, ?_⟩
      · rw [h2, h1]
        simp [hs0]
      · intro v hv
        rcases List.mem_cons.mp hv with h | h
        · simp [h]
        · simp only [List.map_cons, List.mem_cons]
          exact Or.inr (hmem2 v h)

/-- The fetch log grows only by batch entries, each within the depth
ceiling. -/
theorem run_batch_fetched (cfg : Config) (w : World) :
    ∀ (b : List (String × Nat)) (s : ScrState),
      ∃ t, (run_batch cfg w s b).1.fetched = s.fetched ++ t ∧
        ∀ p ∈ t, p.2 ≤ cfg.max_depth ∧ p ∈ b := by
  intro b
  induction b with
  | nil =>
    intro s
    exact ⟨[], by simp [run_batch], by simp⟩
  | cons e rest ih =>
    intro s
    obtain ⟨url, depth⟩ := e
    simp only [run_batch]
    set s0 : ScrState := { s with dispatched := s.dispatched ++ [(url, depth)] } with hs0
    obtain ⟨t2, h2, hmem2⟩ :=
      ih (scrape_page cfg w s0 url depth (url == cfg.base_url)).1
    rcases scrape_page_fetched cfg w s0 url depth (url == cfg.base_url) with h1 |
      ⟨hdep, -, h1⟩
    · refine ⟨t2, ?_, ?_⟩
      · rw [h2, h1]
      · intro p hp
        exact ⟨(hmem2 p hp).1, List.mem_cons_of_mem _ (hmem2 p hp).2⟩
    · refine ⟨(url, depth) :: t2, ?_, ?_⟩
      · rw [h2, h1]
        simp [hs0]
      · intro p hp
        rcases List.mem_cons.mp hp with h | h
        · subst h
          exact ⟨hdep, List.mem_cons_self _ _⟩
        · exact ⟨(hmem2 p h).1, List.mem_cons_of_mem _ (hmem2 p h).2⟩

/-- Every link a batch hands back for enqueueing is in scope and alive. -/
theorem run_batch_snd (cfg : Config) (w : World) :
    ∀ (b : List (String × Nat)) (s : ScrState),
      ∀ p ∈ (run_batch cfg w s b).2,
        is_valid_url cfg.base_url p.1 = true ∧ check_link w p.1 = false := by
  intro b
  induction b with
  | nil =>
    intro s p hp
    simp [run_batch] at hp
  | cons e rest ih =>
    intro s p hp
    obtain ⟨url, depth⟩ := e
    simp only [run_batch] at hp
    rcases List.mem_append.mp hp with h | h
    · have := scrape_page_snd cfg w
        { s with dispatched := s.dispatched ++ [(url, depth)] } url depth
        (url == cfg.base_url) p h
      exact ⟨this.1, this.2.1⟩
    · exact ih _ p h

/-- The upsert log stays duplicate-free and inside the visited set
across a batch. -/
theorem run_batch_upserts_inv (cfg : Config) (w : World) :
    ∀ (b : List (String × Nat)) (s : ScrState),
      s.upserts.Nodup → (∀ u ∈ s.upserts, u ∈ s.visited) →
      (run_batch cfg w s b).1.upserts.Nodup ∧
        ∀ u ∈ (run_batch cfg w s b).1.upserts, u ∈ (run_batch cfg w s b).1.visited := by
  intro b
  induction b with
  | nil =>
    intro s h1 h2
    simpa [run_batch] using ⟨h1, h2⟩
  | cons e rest ih =>
    intro s h1 h2
    obtain ⟨url, depth⟩ := e
    simp only [run_batch]
    have step := scrape_page_upserts_inv cfg w
      { s with dispatched := s.dispatched ++ [(url, depth)] } url depth
      (url == cfg.base_url) h1 h2
    exact ih _ step.1 step.2

/-- Every dead-link record a batch appends validates dead and names a
source page visited by the end of the batch. -/
theorem run_batch_deadlinks (cfg : Config) (w : World) :
    ∀ (b : List (String × Nat)) (s : ScrState),
      ∃ extra, (run_batch cfg w s b).1.deadlinks = s.deadlinks ++ extra ∧
        ∀ r ∈ extra, check_link w r.2 = true ∧
          r.1 ∈ (run_batch cfg w s b).1.visited := by
  intro b
  induction b with
  | nil =>
    intro s
    exact ⟨[], by simp [run_batch], by simp⟩
  | cons e rest ih =>
    intro s
    obtain ⟨url, depth⟩ := e
    simp only [run_batch]
    set s0 : ScrState := { s with dispatched := s.dispatched ++ [(url, depth)] } with hs0
    obtain ⟨e1, h1, hp1⟩ := scrape_page_deadlinks cfg w s0 url depth (url == cfg.base_url)
    obtain ⟨e2, h2, hp2⟩ := ih (scrape_page cfg w s0 url depth (url == cfg.base_url)).1
    obtain ⟨t, ht, -, -⟩ := run_batch_visited cfg w rest
      (scrape_page cfg w s0 url depth (url == cfg.base_url)).1
    refine ⟨e1 ++ e2, ?_, ?_⟩
    · rw [h2, h1]
      simp [hs0]
    · intro r hr
      rcases List.mem_append.mp hr with h | h
      · refine ⟨(hp1 r h).1, ?_⟩
        rw [ht]
        exact List.mem_append_left _ (hp1 r h).2
      · exact hp2 r h

/-- A frontier entry carrying the base URL is dispatched with
`force_scan = true` (line 159), so the rescan gate can never stop it:
its fetch is always attempted. -/
theorem run_batch_seed_fetched (cfg : Config) (w : World) (s : ScrState)
    (d : Nat) (rest : List (String × Nat))
    (h1 : cfg.base_url ∉ s.visited) (h2 : d ≤ cfg.max_depth) :
    (cfg.base_url, d) ∈
      (run_batch cfg w s ((cfg.base_url, d) :: rest)).1.fetched := by
  simp only [run_batch]
  set s0 : ScrState :=
    { s with dispatched := s.dispatched ++ [(cfg.base_url, d)] } with hs0
  have hguard : ¬(cfg.base_url ∈ s0.visited ∨ cfg.max_depth < d) := by
    rw [not_or]
    exact ⟨h1, by omega⟩
  have hgate : ¬((cfg.base_url == cfg.base_url) = false ∧
      recently_scanned s0.history w.now cfg.base_url = true) := by
    intro hc
    simp at hc
  have hf := scrape_page_pass_fetched cfg w s0 cfg.base_url d
    (cfg.base_url == cfg.base_url) hguard hgate
  obtain ⟨t, ht, -⟩ := run_batch_fetched cfg w rest
    (scrape_page cfg w s0 cfg.base_url d (cfg.base_url == cfg.base_url)).1
  rw [ht, hf]
  simp

/-! Facts about the driving loop -/

/-- Lines 153: with an empty queue or once
`len(visited) >= max_pages`, no further batch is dispatched and the
state is returned untouched. -/
theorem crawl_loop_halt (cfg : Config) (w : World) (fuel : Nat) (s : ScrState)
    (tv : List (String × Nat))
    (h : tv = [] ∨ cfg.max_pages ≤ s.visited.length) :
    crawl_loop cfg w fuel s tv = (s, tv) := by
  cases fuel with
  | zero => rfl
  | succ n =>
    simp only [crawl_loop]
    rw [if_pos h]

/-- One full iteration of the driving loop. -/
theorem crawl_loop_step (cfg : Config) (w : World) (fuel : Nat) (s : ScrState)
    (tv : List (String × Nat))
    (h : ¬(tv = [] ∨ cfg.max_pages ≤ s.visited.length)) :
    crawl_loop cfg w (fuel + 1) s tv =
      crawl_loop cfg w fuel
        { (run_batch cfg w s (tv.take 10)).1 with
            enq := (run_batch cfg w s (tv.take 10)).1.enq ++
              (run_batch cfg w s (tv.take 10)).2 }
        (tv.drop 10 ++ (run_batch cfg w s (tv.take 10)).2) := by
  simp only [crawl_loop]
  rw [if_neg h]

/-- The visited set only ever grows. -/
theorem crawl_loop_visited_mono (cfg : Config) (w : World) :
    ∀ (fuel : Nat) (s : ScrState) (tv : List (String × Nat)),
      ∃ t, (crawl_loop cfg w fuel s tv).1.visited = s.visited ++ t := by
  intro fuel
  induction fuel with
  | zero =>
    intro s tv
    exact ⟨[], by simp [crawl_loop]⟩
  | succ n ih =>
    intro s tv
    by_cases hc : tv = [] ∨ cfg.max_pages ≤ s.visited.length
    · rw [crawl_loop_halt cfg w (n + 1) s tv hc]
      exact ⟨[], by simp⟩
    · rw [crawl_loop_step cfg w n s tv hc]
      obtain ⟨t1, ht1, -, -⟩ := run_batch_visited cfg w (tv.take 10) s
      obtain ⟨t2, ht2⟩ := ih
        { (run_batch cfg w s (tv.take 10)).1 with
            enq := (run_batch cfg w s (tv.take 10)).1.enq ++
              (run_batch cfg w s (tv.take 10)).2 }
        (tv.drop 10 ++ (run_batch cfg w s (tv.take 10)).2)
      refine ⟨t1 ++ t2, ?_⟩
      rw [ht2]
      show (run_batch cfg w s (tv.take 10)).1.visited ++ t2 = s.visited ++ (t1 ++ t2)
      rw [ht1, List.append_assoc]

/-- The page ceiling can be overshot by at most one batch: starting at
or below `max_pages + 9`, the visited set never exceeds
`max_pages + 9 = max_pages + (batch width - 1)` entries. -/
theorem crawl_loop_visited_le (cfg : Config) (w : World) :
    ∀ (fuel : Nat) (s : ScrState) (tv : List (String × Nat)),
      s.visited.length ≤ cfg.max_pages + 9 →
      (crawl_loop cfg w fuel s tv).1.visited.length ≤ cfg.max_pages + 9 := by
  intro fuel
  induction fuel with
  | zero =>
    intro s tv h
    exact h
  | succ n ih =>
    intro s tv h
    by_cases hc : tv = [] ∨ cfg.max_pages ≤ s.visited.length
    · rw [crawl_loop_halt cfg w (n + 1) s tv hc]
      exact h
    · rw [crawl_loop_step cfg w n s tv hc]
      apply ih
      obtain ⟨t, ht, hlen, -⟩ := run_batch_visited cfg w (tv.take 10) s
      have hlt : s.visited.length < cfg.max_pages := by
        rw [not_or] at hc
        omega
      have htake : (tv.take 10).length ≤ 10 := by
        simp [List.length_take]
      show (run_batch cfg w s (tv.take 10)).1.visited.length ≤ cfg.max_pages + 9
      rw [ht]
      simp only [List.length_append]
      omega

/-- Every page ever fetched was fetched within the depth ceiling. -/
theorem crawl_loop_fetched_depth (cfg : Config) (w : World) :
    ∀ (fuel : Nat) (s : ScrState) (tv : List (String × Nat)),
      (∀ p ∈ s.fetched, p.2 ≤ cfg.max_depth) →
      ∀ p ∈ (crawl_loop cfg w fuel s tv).1.fetched, p.2 ≤ cfg.max_depth := by
  intro fuel
  induction fuel with
  | zero =>
    intro s tv h
    exact h
  | succ n ih =>
    intro s tv h
    by_cases hc : tv = [] ∨ cfg.max_pages ≤ s.visited.length
    · rw [crawl_loop_halt cfg w (n + 1) s tv hc]
      exact h
    · rw [crawl_loop_step cfg w n s tv hc]
      apply ih
      obtain ⟨t, ht, hmem⟩ := run_batch_fetched cfg w (tv.take 10) s
      show ∀ p ∈ (run_batch cfg w s (tv.take 10)).1.fetched, p.2 ≤ cfg.max_depth
      rw [ht]
      intro p hp
      rcases List.mem_append.mp hp with h' | h'
      · exact h p h'
      · exact (hmem p h').1

/-- Every dispatched frontier entry passes the domain scope filter,
provided the pending queue already does. -/
theorem crawl_loop_dispatched_valid (cfg : Config) (w : World) :
    ∀ (fuel : Nat) (s : ScrState) (tv : List (String × Nat)),
      (∀ p ∈ s.dispatched, is_valid_url cfg.base_url p.1 = true) →
      (∀ p ∈ tv, is_valid_url cfg.base_url p.1 = true) →
      ∀ p ∈ (crawl_loop cfg w fuel s tv).1.dispatched,
        is_valid_url cfg.base_url p.1 = true := by
  intro fuel
  induction fuel with
  | zero =>
    intro s tv h htv
    exact h
  | succ n ih =>
    intro s tv h htv
    by_cases hc : tv = [] ∨ cfg.max_pages ≤ s.visited.length
    · rw [crawl_loop_halt cfg w (n + 1) s tv hc]
      exact h
    · rw [crawl_loop_step cfg w n s tv hc]
      apply ih
      · show ∀ p ∈ (run_batch cfg w s (tv.take 10)).1.dispatched,
          is_valid_url cfg.base_url p.1 = true
        rw [run_batch_dispatched cfg w (tv.take 10) s]
        intro p hp
        rcases List.mem_append.mp hp with h' | h'
        · exact h p h'
        · exact htv p (List.take_subset 10 tv h')
      · intro p hp
        rcases List.mem_append.mp hp with h' | h'
        · exact htv p (List.drop_subset 10 tv h')
        · exact (run_batch_snd cfg w (tv.take 10) s p h').1

/-- The upsert log stays duplicate-free and inside the visited set over
the whole crawl. -/
theorem crawl_loop_upserts_inv (cfg : Config) (w : World) :
    ∀ (fuel : Nat) (s : ScrState) (tv : List (String × Nat)),
      s.upserts.Nodup → (∀ u ∈ s.upserts, u ∈ s.visited) →
      (crawl_loop cfg w fuel s tv).1.upserts.Nodup := by
  intro fuel
  induction fuel with
  | zero =>
    intro s tv h1 h2
    exact h1
  | succ n ih =>
    intro s tv h1 h2
    by_cases hc : tv = [] ∨ cfg.max_pages ≤ s.visited.length
    · rw [crawl_loop_halt cfg w (n + 1) s tv hc]
      exact h1
    · rw [crawl_loop_step cfg w n s tv hc]
      have step := run_batch_upserts_inv cfg w (tv.take 10) s h1 h2
      exact ih _ _ step.1 step.2

/-- Every dead-link record accumulated by the loop beyond the starting
list validates dead and names a visited source page. -/
theorem crawl_loop_deadlinks (cfg : Config) (w : World) :
    ∀ (fuel : Nat) (s : ScrState) (tv : List (String × Nat)),
      ∃ extra, (crawl_loop cfg w fuel s tv).1.deadlinks = s.deadlinks ++ extra ∧
        ∀ r ∈ extra, check_link w r.2 = true ∧
          r.1 ∈ (crawl_loop cfg w fuel s tv).1.visited := by
  intro fuel
  induction fuel with
  | zero =>
    intro s tv
    exact ⟨[], by simp [crawl_loop], by simp⟩
  | succ n ih =>
    intro s tv
    by_cases hc : tv = [] ∨ cfg.max_pages ≤ s.visited.length
    · rw [crawl_loop_halt cfg w (n + 1) s tv hc]
      exact ⟨[], by simp, by simp⟩
    · rw [crawl_loop_step cfg w n s tv hc]
      obtain ⟨e1, h1, hp1⟩ := run_batch_deadlinks cfg w (tv.take 10) s
      obtain ⟨e2, h2, hp2⟩ := ih
        { (run_batch cfg w s (tv.take 10)).1 with
            enq := (run_batch cfg w s (tv.take 10)).1.enq ++
              (run_batch cfg w s (tv.take 10)).2 }
        (tv.drop 10 ++ (run_batch cfg w s (tv.take 10)).2)
      obtain ⟨t2, ht2⟩ := crawl_loop_visited_mono cfg w n
        { (run_batch cfg w s (tv.take 10)).1 with
            enq := (run_batch cfg w s (tv.take 10)).1.enq ++
              (run_batch cfg w s (tv.take 10)).2 }
        (tv.drop 10 ++ (run_batch cfg w s (tv.take 10)).2)
      refine ⟨e1 ++ e2, ?_, ?_⟩
      · rw [h2]
        show (run_batch cfg w s (tv.take 10)).1.deadlinks ++ e2 =
          s.deadlinks ++ (e1 ++ e2)
        rw [h1, List.append_assoc]
      · intro r hr
        rcases List.mem_append.mp hr with h' | h'
        · refine ⟨(hp1 r h').1, ?_⟩
          rw [ht2]
          exact List.mem_append_left _ (hp1 r h').2
        · exact hp2 r h'

/-- A URL whose liveness check reports dead can never enter the visited
set, the fetch log or the queue log, as long as it is on neither the
pending queue nor any of those records to begin with. -/
theorem crawl_loop_dead_avoid (cfg : Config) (w : World) (u : String)
    (hdead : check_link w u = true) :
    ∀ (fuel : Nat) (s : ScrState) (tv : List (String × Nat)),
      u ∉ s.visited → (∀ d, (u, d) ∉ s.fetched) → (∀ d, (u, d) ∉ s.enq) →
      (∀ d, (u, d) ∉ tv) →
      u ∉ (crawl_loop cfg w fuel s tv).1.visited ∧
      (∀ d, (u, d) ∉ (crawl_loop cfg w fuel s tv).1.fetched) ∧
      (∀ d, (u, d) ∉ (crawl_loop cfg w fuel s tv).1.enq) := by
  intro fuel
  induction fuel with
  | zero =>
    intro s tv h1 h2 h3 h4
    exact ⟨h1, h2, h3⟩
  | succ n ih =>
    intro s tv h1 h2 h3 h4
    by_cases hc : tv = [] ∨ cfg.max_pages ≤ s.visited.length
    · rw [crawl_loop_halt cfg w (n + 1) s tv hc]
      exact ⟨h1, h2, h3⟩
    · rw [crawl_loop_step cfg w n s tv hc]
      apply ih
      · obtain ⟨t, ht, -, hmem⟩ := run_batch_visited cfg w (tv.take 10) s
        show u ∉ (run_batch cfg w s (tv.take 10)).1.visited
        rw [ht]
        intro hin
        rcases List.mem_append.mp hin with h' | h'
        · exact h1 h'
        · obtain ⟨p, hp, hpu⟩ := List.mem_map.mp (hmem u h')
          obtain ⟨p1, p2⟩ := p
          simp only at hpu
          subst hpu
          exact h4 p2 (List.take_subset 10 tv hp)
      · obtain ⟨t, ht, hmem⟩ := run_batch_fetched cfg w (tv.take 10) s
        show ∀ d, (u, d) ∉ (run_batch cfg w s (tv.take 10)).1.fetched
        intro d hd
        rw [ht] at hd
        rcases List.mem_append.mp hd with h' | h'
        · exact h2 d h'
        · exact h4 d (List.take_subset 10 tv (hmem _ h').2)
      · intro d hd
        have hd' : (u, d) ∈ (run_batch cfg w s (tv.take 10)).1.enq ++
            (run_batch cfg w s (tv.take 10)).2 := hd
        rcases List.mem_append.mp hd' with h' | h'
        · rw [run_batch_enq cfg w (tv.take 10) s] at h'
          exact h3 d h'
        · have := (run_batch_snd cfg w (tv.take 10) s (u, d) h').2
          simp only at this
          rw [hdead] at this
          cases this
      · intro d hd
        rcases List.mem_append.mp hd with h' | h'
        · exact h4 d (List.drop_subset 10 tv h')
        · have := (run_batch_snd cfg w (tv.take 10) s (u, d) h').2
          simp only at this
          rw [hdead] at this
          cases this

/-- The rescan gate of lines 121-123 in terms of the history rows: it
fires exactly when a row for the URL exists (first match) and its
timestamp is within the window of `now`. -/
theorem recently_scanned_iff (history : List (String × Int)) (now : Int)
    (url : String) :
    recently_scanned history now url = true ↔
      ∃ last, history.lookup url = some last ∧ now - last < rescan_window := by
  unfold recently_scanned
  cases h : history.lookup url with
  | none => simp
  | some last => simp [h]

/-- The normalized base URL trivially passes its own scope filter. -/
theorem is_valid_url_self (base : String) : is_valid_url base base = true := by
  simp [is_valid_url]

/-! Concrete configurations and worlds used as test inputs -/

/-- A tiny ceiling (2 pages) to expose the between-batches ceiling check. -/
def cfg_two : Config := { base_url := "s", max_pages := 2 }

/-- Default limits (10000 pages, depth 20) with seed "s". -/
def cfg_chain : Config := { base_url := "s" }

/-- The seed page links to ten pages, all alive and leaf. -/
def fan_world : World :=
  { now := 0, history0 := [], existingResults := [],
    fetch := fun u =>
      if u = "s" then some ["a0", "a1", "a2", "a3", "a4", "a5", "a6", "a7", "a8", "a9"]
      else some [],
    head := fun _ => some 200 }

/-- A linear chain of pages s -> u1 -> u2 -> ... deeper than the default
depth ceiling of 20; every link is alive. -/
def chain_pages : List (String × List String) :=
  ("s", ["u1"]) :: (List.range 30).map
    (fun i => (String.mk ('u' :: Nat.toDigits 10 (i + 1)),
               [String.mk ('u' :: Nat.toDigits 10 (i + 2))]))

/-- World serving the deep chain. -/
def chain_world : World :=
  { now := 0, history0 := [], existingResults := [],
    fetch := fun u => chain_pages.lookup u,
    head := fun _ => some 200 }

/-- Every page fetch raises a network exception. -/
def fail_world : World :=
  { now := 0, history0 := [], existingResults := [],
    fetch := fun _ => none, head := fun _ => some 200 }

/-- History contains URL "a" scanned 5 days ago (inside the 14-day
window); all fetches succeed with no links. -/
def gate_world : World :=
  { now := 10, history0 := [("a", 5)], existingResults := [],
    fetch := fun _ => some [], head := fun _ => some 200 }

/-- The seed links to a single dead page "d" (HEAD status 404). -/
def dead_world : World :=
  { now := 0, history0 := [], existingResults := [],
    fetch := fun u => if u = "s" then some ["d"] else some [],
    head := fun u => if u = "s" then some 200 else some 404 }

/-- The results file already holds a record from an earlier invocation;
the crawl itself finds nothing dead. -/
def preload_world : World :=
  { now := 0, history0 := [], existingResults := [("old", "gone")],
    fetch := fun _ => some [], head := fun _ => some 200 }

/-- An arbitrary state whose visited set already has 2 entries. -/
def full_state : ScrState :=
  { visited := ["x", "y"], deadlinks := [], current_depth := 0, history := [],
    dispatched := [], fetched := [], upserts := [], enq := [] }

/-! The claims -/

/-- C1, counterexample: with a page ceiling of 2, the crawl of
`fan_world` ends with 11 visited URLs — the VisitedSet exceeds
`maxPages` mid-crawl, because the ceiling is only checked between
batches while a full batch of 10 is dispatched below it.  So "the size
of the VisitedSet is at most maxPages at every point" is false. -/
theorem claim_C1_cex :
    cfg_two.max_pages < (start_scraping cfg_two fan_world 3).1.visited.length := by
  decide

/-- C1 (amended): once `len(visited) >= maxPages` the loop refuses to
dispatch any further batch and returns immediately (and no batch is
ever truncated); consequently the VisitedSet is bounded by
`maxPages + 9` (ceiling plus batch width minus one), not by `maxPages`. -/
theorem claim_C1_amended :
    (∀ (cfg : Config) (w : World) (fuel : Nat) (s : ScrState)
        (tv : List (String × Nat)),
      cfg.max_pages ≤ s.visited.length → crawl_loop cfg w fuel s tv = (s, tv)) ∧
    (∀ (cfg : Config) (w : World) (fuel : Nat),
      (start_scraping cfg w fuel).1.visited.length ≤ cfg.max_pages + 9) := by
  constructor
  · intro cfg w fuel s tv h
    exact crawl_loop_halt cfg w fuel s tv (Or.inr h)
  · intro cfg w fuel
    unfold start_scraping
    apply crawl_loop_visited_le
    simp [init_state]

/-- Witness for C1 (amended) at concrete inputs. -/
theorem claim_C1_amended_witness :
    crawl_loop cfg_two fan_world 3 full_state [] = (full_state, []) ∧
    (start_scraping cfg_two fan_world 3).1.visited.length ≤ cfg_two.max_pages + 9 :=
  ⟨claim_C1_amended.1 cfg_two fan_world 3 full_state [] (by decide),
   claim_C1_amended.2 cfg_two fan_world 3⟩

/-- C2, counterexample: crawling the deep chain with the default depth
ceiling 20 places the entry ("u21", 21) — depth 21 > maxDepth — on the
frontier queue.  So "an entry whose depth exceeds maxDepth is dropped at
discovery time, never enqueued" is false: the depth check happens at
dispatch time inside scrape_page, not at discovery. -/
theorem claim_C2_cex :
    ("u21", 21) ∈ (start_scraping cfg_chain chain_world 30).1.enq ∧
      cfg_chain.max_depth < 21 := by
  decide

/-- C2 (amended): every FrontierEntry that is fetched has depth at most
maxDepth; an entry whose depth exceeds maxDepth may be enqueued and even
dispatched, but scrape_page drops it before any fetch (lines 114-115),
so it is never fetched. -/
theorem claim_C2_amended :
    (∀ (cfg : Config) (w : World) (fuel : Nat),
      ∀ p ∈ (start_scraping cfg w fuel).1.fetched, p.2 ≤ cfg.max_depth) ∧
    (∀ (cfg : Config) (w : World) (s : ScrState) (url : String) (depth : Nat)
        (force_scan : Bool), cfg.max_depth < depth →
      scrape_page cfg w s url depth force_scan = (s, [])) := by
  constructor
  · intro cfg w fuel p hp
    unfold start_scraping at hp
    refine crawl_loop_fetched_depth cfg w fuel _ _ ?_ p hp
    simp [init_state]
  · intro cfg w s url depth force_scan h
    exact scrape_page_guard cfg w s url depth force_scan (Or.inr h)

/-- Witness for C2 (amended) at concrete inputs. -/
theorem claim_C2_amended_witness :
    ((("s", 0) : String × Nat)).2 ≤ cfg_chain.max_depth ∧
    scrape_page cfg_chain chain_world (init_state chain_world) "x" 21 false =
      (init_state chain_world, []) :=
  ⟨claim_C2_amended.1 cfg_chain chain_world 2 ("s", 0) (by decide),
   claim_C2_amended.2 cfg_chain chain_world (init_state chain_world) "x" 21 false
     (by decide)⟩

/-- C3: for an unvisited URL within the depth ceiling, scrape_page skips
the fetch exactly when the force flag is false, a history row exists for
the URL, and now minus its LastScanned is under the 14-day window; and a
frontier entry carrying the base URL is dispatched with the force flag
set (line 159), so its fetch is always attempted regardless of
history. -/
theorem claim_C3 :
    (∀ (cfg : Config) (w : World) (s : ScrState) (url : String) (depth : Nat)
        (force_scan : Bool),
      url ∉ s.visited → depth ≤ cfg.max_depth →
      ((scrape_page cfg w s url depth force_scan).1.fetched = s.fetched ↔
        (force_scan = false ∧ ∃ last, s.history.lookup url = some last ∧
          w.now - last < rescan_window))) ∧
    (∀ (cfg : Config) (w : World) (s : ScrState) (d : Nat)
        (rest : List (String × Nat)),
      cfg.base_url ∉ s.visited → d ≤ cfg.max_depth →
      (cfg.base_url, d) ∈
        (run_batch cfg w s ((cfg.base_url, d) :: rest)).1.fetched) := by
  constructor
  · intro cfg w s url depth force_scan h1 h2
    have hguard : ¬(url ∈ s.visited ∨ cfg.max_depth < depth) := by
      rw [not_or]
      exact ⟨h1, by omega⟩
    by_cases hg : force_scan = false ∧ recently_scanned s.history w.now url = true
    · constructor
      · intro _
        exact ⟨hg.1, (recently_scanned_iff s.history w.now url).mp hg.2⟩
      · intro _
        rw [scrape_page_skip cfg w s url depth force_scan hguard hg]
        rfl
    · constructor
      · intro hfet
        exfalso
        rw [scrape_page_pass_fetched cfg w s url depth force_scan hguard hg] at hfet
        have := congrArg List.length hfet
        simp at this
      · intro hrhs
        exfalso
        apply hg
        refine ⟨hrhs.1, (recently_scanned_iff s.history w.now url).mpr hrhs.2⟩
  · intro cfg w s d rest h1 h2
    exact run_batch_seed_fetched cfg w s d rest h1 h2

/-- Witness for C3 at concrete inputs: URL "a", scanned 5 days before
`now` in `gate_world`, is skipped; the seed is fetched. -/
theorem claim_C3_witness :
    (scrape_page cfg_chain gate_world (init_state gate_world) "a" 0 false).1.fetched =
      (init_state gate_world).fetched ∧
    (cfg_chain.base_url, 0) ∈
      (run_batch cfg_chain gate_world (init_state gate_world)
        [(cfg_chain.base_url, 0)]).1.fetched :=
  ⟨(claim_C3.1 cfg_chain gate_world (init_state gate_world) "a" 0 false
      (by decide) (by decide)).mpr ⟨rfl, 5, by decide, by decide⟩,
   claim_C3.2 cfg_chain gate_world (init_state gate_world) 0 []
     (by decide) (by decide)⟩

/-- C4: check_link reports dead exactly when the HEAD request's final
status is anything other than 200 or the request raises (fail-closed),
and reports alive exactly on a clean 200.  The outcome is a plain
boolean computed once: an exception yields the same result as a
confirmed-dead status, never a retry or a dropped link. -/
theorem claim_C4 (w : World) (url : String) :
    (check_link w url = true ↔
      (w.head url = none ∨ ∃ c, w.head url = some c ∧ c ≠ 200)) ∧
    (check_link w url = false ↔ w.head url = some 200) := by
  cases h : w.head url with
  | none => simp [check_link, h]
  | some c =>
    by_cases hc : c = 200 <;> simp [check_link, h, hc]

/-- C5, counterexample: in `fail_world` the seed passes the rescan gate
and its fetch is attempted and fails, yet `update_history` is never
called — the upsert log stays empty.  So "upsertHistory is called on
both fetch success and fetch failure" is false: line 143 sits inside the
`try` block and is skipped on exception. -/
theorem claim_C5_cex :
    ("s", 0) ∈ (start_scraping cfg_chain fail_world 2).1.fetched ∧
    (start_scraping cfg_chain fail_world 2).1.upserts = [] := by
  decide

/-- C5 (amended): for every URL that passes the rescan gate,
update_history is called exactly once — after the link loop — when the
fetch succeeds, and not at all when the fetch raises; it is never called
for a gate-skipped URL; and no URL is ever upserted twice in a crawl. -/
theorem claim_C5_amended :
    (∀ (cfg : Config) (w : World) (s : ScrState) (url : String) (depth : Nat)
        (force_scan : Bool),
      url ∉ s.visited → depth ≤ cfg.max_depth →
      ¬(force_scan = false ∧ recently_scanned s.history w.now url = true) →
      (scrape_page cfg w s url depth force_scan).1.upserts =
        (if (w.fetch url).isSome then s.upserts ++ [url] else s.upserts)) ∧
    (∀ (cfg : Config) (w : World) (s : ScrState) (url : String) (depth : Nat)
        (force_scan : Bool),
      (force_scan = false ∧ recently_scanned s.history w.now url = true) →
      (scrape_page cfg w s url depth force_scan).1.upserts = s.upserts) ∧
    (∀ (cfg : Config) (w : World) (fuel : Nat),
      (start_scraping cfg w fuel).1.upserts.Nodup) := by
  refine ⟨?_, ?_, ?_⟩
  · intro cfg w s url depth force_scan h1 h2 hg
    have hguard : ¬(url ∈ s.visited ∨ cfg.max_depth < depth) := by
      rw [not_or]
      exact ⟨h1, by omega⟩
    exact scrape_page_upserts_eq cfg w s url depth force_scan hguard hg
  · intro cfg w s url depth force_scan hg
    by_cases h : url ∈ s.visited ∨ cfg.max_depth < depth
    · rw [scrape_page_guard cfg w s url depth force_scan h]
    · rw [scrape_page_skip cfg w s url depth force_scan h hg]
      rfl
  · intro cfg w fuel
    unfold start_scraping
    apply crawl_loop_upserts_inv cfg w fuel _ _ (by simp [init_state])
    simp [init_state]

/-- Witness for C5 (amended) at concrete inputs. -/
theorem claim_C5_amended_witness :
    (scrape_page cfg_chain fail_world (init_state fail_world) "s" 0 true).1.upserts =
      (if (fail_world.fetch "s").isSome
        then (init_state fail_world).upserts ++ ["s"]
        else (init_state fail_world).upserts) ∧
    (scrape_page cfg_chain gate_world (init_state gate_world) "a" 0 false).1.upserts =
      (init_state gate_world).upserts ∧
    (start_scraping cfg_chain fail_world 2).1.upserts.Nodup :=
  ⟨claim_C5_amended.1 cfg_chain fail_world (init_state fail_world) "s" 0 true
     (by decide) (by decide) (by decide),
   claim_C5_amended.2.1 cfg_chain gate_world (init_state gate_world) "a" 0 false
     ⟨rfl, by decide⟩,
   claim_C5_amended.2.2 cfg_chain fail_world 2⟩

/-- C6, counterexample: in `dead_world` the link "d" is reported dead
and recorded, yet it is NOT added to the VisitedSet — the dead branch of
lines 136-138 records the link and moves on without touching
`visited_urls`.  So "a dead URL is marked visited" is false. -/
theorem claim_C6_cex :
    ("s", "d") ∈ (start_scraping cfg_chain dead_world 3).1.deadlinks ∧
    "d" ∉ (start_scraping cfg_chain dead_world 3).1.visited := by
  decide

/-- C6 (amended): a URL (other than the seed, which is dispatched
without validation) that the Link Validator reports dead is never added
to the VisitedSet, never enqueued into the frontier, and never fetched
for link extraction. -/
theorem claim_C6_amended (cfg : Config) (w : World) (u : String) (fuel : Nat)
    (hdead : check_link w u = true) (hseed : u ≠ cfg.base_url) :
    u ∉ (start_scraping cfg w fuel).1.visited ∧
    (∀ d, (u, d) ∉ (start_scraping cfg w fuel).1.fetched) ∧
    (∀ d, (u, d) ∉ (start_scraping cfg w fuel).1.enq) := by
  unfold start_scraping
  apply crawl_loop_dead_avoid cfg w u hdead fuel
  · simp [init_state]
  · simp [init_state]
  · intro d hd
    simp only [init_state, List.mem_singleton] at hd
    exact hseed (congrArg Prod.fst hd)
  · intro d hd
    simp only [List.mem_singleton] at hd
    exact hseed (congrArg Prod.fst hd)

/-- Witness for C6 (amended) at concrete inputs: the dead link "d" of
`dead_world`. -/
theorem claim_C6_amended_witness :
    "d" ∉ (start_scraping cfg_chain dead_world 3).1.visited ∧
    (∀ d, ("d", d) ∉ (start_scraping cfg_chain dead_world 3).1.fetched) ∧
    (∀ d, ("d", d) ∉ (start_scraping cfg_chain dead_world 3).1.enq) :=
  claim_C6_amended cfg_chain dead_world "d" 3 (by decide) (by decide)

/-- C7: when the page fetch raises, scrape_page returns the empty link
list with the page marked visited and nothing else changed (no dead
links, no history write), and the batch dispatch is unaffected by page
outcomes — every batch entry is dispatched, so the crawl continues. -/
theorem claim_C7 :
    (∀ (cfg : Config) (w : World) (s : ScrState) (url : String) (depth : Nat)
        (force_scan : Bool),
      url ∉ s.visited → depth ≤ cfg.max_depth →
      ¬(force_scan = false ∧ recently_scanned s.history w.now url = true) →
      w.fetch url = none →
      scrape_page cfg w s url depth force_scan =
        (mark_fetch (mark_visited s url depth) url depth, []) ∧
      url ∈ (scrape_page cfg w s url depth force_scan).1.visited) ∧
    (∀ (cfg : Config) (w : World) (s : ScrState) (b : List (String × Nat)),
      (run_batch cfg w s b).1.dispatched = s.dispatched ++ b) := by
  constructor
  · intro cfg w s url depth force_scan h1 h2 hg hf
    have hguard : ¬(url ∈ s.visited ∨ cfg.max_depth < depth) := by
      rw [not_or]
      exact ⟨h1, by omega⟩
    have heq := scrape_page_fail cfg w s url depth force_scan hguard hg hf
    refine ⟨heq, ?_⟩
    rw [heq]
    simp [mark_fetch, mark_visited]
  · intro cfg w s b
    exact run_batch_dispatched cfg w b s

/-- Witness for C7 at concrete inputs: the seed of `fail_world`. -/
theorem claim_C7_witness :
    (scrape_page cfg_chain fail_world (init_state fail_world) "s" 0 true =
      (mark_fetch (mark_visited (init_state fail_world) "s" 0) "s" 0, []) ∧
      "s" ∈ (scrape_page cfg_chain fail_world (init_state fail_world) "s" 0
        true).1.visited) ∧
    (run_batch cfg_chain fail_world (init_state fail_world) [("s", 0)]).1.dispatched =
      (init_state fail_world).dispatched ++ [("s", 0)] :=
  ⟨claim_C7.1 cfg_chain fail_world (init_state fail_world) "s" 0 true
     (by decide) (by decide) (by decide) rfl,
   claim_C7.2 cfg_chain fail_world (init_state fail_world) [("s", 0)]⟩

/-- C8: every frontier entry ever dispatched for fetching passes the
Domain Scope Filter relative to the normalized base URL, and the filter
returns true if and only if the URL's host equals the base host or ends
with the base host string (case-sensitive suffix match, no path or
scheme restriction). -/
theorem claim_C8 :
    (∀ (cfg : Config) (w : World) (fuel : Nat),
      ∀ p ∈ (start_scraping cfg w fuel).1.dispatched,
        is_valid_url cfg.base_url p.1 = true) ∧
    (∀ base url : String, is_valid_url base url =
      (netloc url == netloc base || ends_with (netloc url) (netloc base))) := by
  constructor
  · intro cfg w fuel p hp
    unfold start_scraping at hp
    refine crawl_loop_dispatched_valid cfg w fuel _ _ ?_ ?_ p hp
    · simp [init_state]
    · intro q hq
      simp only [List.mem_singleton] at hq
      rw [hq]
      exact is_valid_url_self cfg.base_url
  · intro base url
    rfl

/-- Witness for C8 at concrete inputs: the dispatched seed of the chain
crawl. -/
theorem claim_C8_witness :
    is_valid_url cfg_chain.base_url (("s", 0) : String × Nat).1 = true ∧
    is_valid_url "http://www.example.com" "http://www.example.com/page" =
      (netloc "http://www.example.com/page" == netloc "http://www.example.com" ||
        ends_with (netloc "http://www.example.com/page")
          (netloc "http://www.example.com")) :=
  ⟨claim_C8.1 cfg_chain chain_world 2 ("s", 0) (by decide),
   claim_C8.2 "http://www.example.com" "http://www.example.com/page"⟩

/-- C9, counterexample: `load_existing_results` (line 99) pre-populates
the accumulator from the results file, so at the start of the crawl the
dead-link list is already non-empty, and the record ("old", "gone")
counted at the end of the `preload_world` crawl was not confirmed during
that invocation.  So "the accumulator is empty when a crawl invocation
starts" is false. -/
theorem claim_C9_cex :
    (init_state preload_world).deadlinks ≠ [] ∧
    (start_scraping cfg_chain preload_world 2).1.deadlinks = [("old", "gone")] := by
  decide

/-- C9 (amended): the dead-link accumulator starts as the full contents
of the existing results file (prior invocations included), and every
record beyond that preloaded list — the only ones new to the session —
was confirmed dead during the invocation, from a source page visited by
it. -/
theorem claim_C9_amended (cfg : Config) (w : World) (fuel : Nat) :
    ∃ fresh, (start_scraping cfg w fuel).1.deadlinks =
        w.existingResults ++ fresh ∧
      ∀ r ∈ fresh, check_link w r.2 = true ∧
        r.1 ∈ (start_scraping cfg w fuel).1.visited := by
  unfold start_scraping
  obtain ⟨extra, h, hp⟩ := crawl_loop_deadlinks cfg w fuel
    { init_state w with enq := [(cfg.base_url, 0)] } [(cfg.base_url, 0)]
  exact ⟨extra, h, hp⟩

/-- C10: across every crawl the VisitedSet never exceeds
`maxPages + 9` — the ceiling plus batch width minus one — because the
ceiling is checked only between batches, a batch holds at most 10
entries, and each dispatched entry adds at most one URL. -/
theorem claim_C10 (cfg : Config) (w : World) (fuel : Nat) :
    (start_scraping cfg w fuel).1.visited.length ≤ cfg.max_pages + 9 := by
  unfold start_scraping
  apply crawl_loop_visited_le
  simp [init_state]

end DeadLinkScraper
